import Mathlib

/-!
Verification of the podcast-site-theme feed core.

JavaScript strings are embedded as `List Char` (`Str`), JS numbers that can
be `NaN` as `Option Int` (`JNum`, `none` = NaN), and the dynamically typed
values produced by fast-xml-parser as the inductive `JPrim`.  All definitions
follow the TypeScript source; the two definitions marked
"Modelled from the spec" embed repository code that is present only through
its tests and callers (server/utils/slug.ts and server/utils/feed-cache.ts).
-/

namespace PodTheme

/-- JS strings are modelled as lists of characters. -/
abbrev Str := List Char

/-- A JS number that may be NaN: `none` is NaN, `some n` an integer value. -/
abbrev JNum := Option Int

/-- Whitespace characters recognised when `parseInt` skips leading space. -/
def isSpaceChar (c : Char) : Bool :=
  c = ' ' || c = '\t' || c = '\n' || c = '\r'

/-- The decimal digit character for `n % 10` (used to embed `Number.toString`). -/
def digitChar (n : Nat) : Char :=
  if n = 0 then '0' else if n = 1 then '1' else if n = 2 then '2'
  else if n = 3 then '3' else if n = 4 then '4' else if n = 5 then '5'
  else if n = 6 then '6' else if n = 7 then '7' else if n = 8 then '8'
  else '9'

/-- Numeric value of a digit character. -/
def digitVal (c : Char) : Nat := c.toNat - 48

/-- Fuel-driven digit expansion (structural recursion so that concrete
inputs evaluate inside the kernel); `fuel > n` suffices. -/
def natReprAux : Nat → Nat → Str
  | 0, _ => []
  | fuel + 1, n =>
    if n < 10 then [digitChar n]
    else natReprAux fuel (n / 10) ++ [digitChar (n % 10)]

/-- Decimal representation of a natural number, as produced by JS
`Number.prototype.toString` for non-negative integers. -/
def natRepr (n : Nat) : Str := natReprAux (n + 1) n

/-- Decimal representation of an integer (`${k}` in JS). -/
def intRepr (k : Int) : Str :=
  if k < 0 then '-' :: natRepr (-k).toNat else natRepr k.toNat

/-- Value of a list of decimal digits (most significant first). -/
def digitsToNat (l : Str) : Nat :=
  l.foldl (fun a c => 10 * a + digitVal c) 0

/-- Embedding of JS `parseInt(s, 10)`: skip leading whitespace, optional
sign, then the longest prefix of decimal digits; no digits means NaN. -/
def jsParseInt (s : Str) : JNum :=
  let t := s.dropWhile isSpaceChar
  match t with
  | [] => none
  | c :: rest =>
    if c = '-' then
      match rest.takeWhile Char.isDigit with
      | [] => none
      | d => some (-(digitsToNat d : Int))
    else if c = '+' then
      match rest.takeWhile Char.isDigit with
      | [] => none
      | d => some (digitsToNat d : Int)
    else
      match t.takeWhile Char.isDigit with
      | [] => none
      | d => some (digitsToNat d : Int)

/-- Embedding of JS `String.prototype.split(':')`. -/
def splitColon : Str → List Str
  | [] => [[]]
  | c :: rest =>
    if c = ':' then [] :: splitColon rest
    else
      match splitColon rest with
      | [] => [[c]]
      | p :: ps => (c :: p) :: ps

/-- Embedding of `String.prototype.padStart(2, '0')`. -/
def pad2 (s : Str) : Str :=
  if s.length < 2 then List.replicate (2 - s.length) '0' ++ s else s

/-! ### Basic lemmas about the numeric-string machinery -/

theorem digitChar_isDigit (n : Nat) : (digitChar n).isDigit = true := by
  unfold digitChar
  repeat' split
  all_goals decide

theorem digitVal_digitChar {n : Nat} (h : n < 10) :
    digitVal (digitChar n) = n := by
  unfold digitChar
  repeat' split
  all_goals simp_all [digitVal]
  omega

theorem natReprAux_ne_nil : ∀ fuel n, 0 < fuel → natReprAux fuel n ≠ [] := by
  intro fuel
  cases fuel with
  | zero => intro n h; omega
  | succ f =>
    intro n _
    simp only [natReprAux]
    split
    · simp
    · simp

theorem natRepr_ne_nil (n : Nat) : natRepr n ≠ [] :=
  natReprAux_ne_nil (n + 1) n (by omega)

theorem natReprAux_digits :
    ∀ fuel n, ∀ c ∈ natReprAux fuel n, c.isDigit = true := by
  intro fuel
  induction fuel with
  | zero => intro n c hc; simp [natReprAux] at hc
  | succ f ih =>
    intro n c hc
    simp only [natReprAux] at hc
    split at hc
    · simp only [List.mem_singleton] at hc
      subst hc; exact digitChar_isDigit n
    · rcases List.mem_append.mp hc with h | h
      · exact ih (n / 10) c h
      · simp only [List.mem_singleton] at h
        subst h; exact digitChar_isDigit (n % 10)

theorem natRepr_digits (n : Nat) : ∀ c ∈ natRepr n, c.isDigit = true :=
  natReprAux_digits (n + 1) n

theorem digitsToNat_append_singleton (l : Str) (c : Char) :
    digitsToNat (l ++ [c]) = 10 * digitsToNat l + digitVal c := by
  simp [digitsToNat, List.foldl_append]

theorem digitsToNat_natReprAux :
    ∀ fuel n, n < fuel → digitsToNat (natReprAux fuel n) = n := by
  intro fuel
  induction fuel with
  | zero => intro n h; omega
  | succ f ih =>
    intro n hn
    simp only [natReprAux]
    split
    · rename_i h
      simp [digitsToNat, digitVal_digitChar h]
    · rename_i h
      rw [digitsToNat_append_singleton, ih (n / 10) (by omega),
        digitVal_digitChar (Nat.mod_lt n (by omega))]
      omega

theorem digitsToNat_natRepr (n : Nat) : digitsToNat (natRepr n) = n :=
  digitsToNat_natReprAux (n + 1) n (by omega)

theorem isDigit_not_space {c : Char} (h : c.isDigit = true) :
    isSpaceChar c = false := by
  by_contra hc
  rw [Bool.not_eq_false] at hc
  simp only [isSpaceChar, Bool.or_eq_true, decide_eq_true_eq] at hc
  rcases hc with ((h1 | h1) | h1) | h1 <;> subst h1 <;>
    exact absurd h (by decide)

theorem isDigit_ne_colon {c : Char} (h : c.isDigit = true) : c ≠ ':' := by
  intro hc; subst hc; simp_all

theorem isDigit_ne_minus {c : Char} (h : c.isDigit = true) : c ≠ '-' := by
  intro hc; subst hc; simp_all

theorem isDigit_ne_plus {c : Char} (h : c.isDigit = true) : c ≠ '+' := by
  intro hc; subst hc; simp_all

theorem takeWhile_eq_self_of_all {p : Char → Bool} :
    ∀ {l : Str}, (∀ c ∈ l, p c = true) → l.takeWhile p = l := by
  intro l
  induction l with
  | nil => intro _; rfl
  | cons c rest ih =>
    intro h
    have h1 : p c = true := h c (List.mem_cons_self c rest)
    have h2 := ih (fun x hx => h x (List.mem_cons_of_mem c hx))
    simp [List.takeWhile_cons, h1, h2]

theorem dropWhile_eq_self_of_head {p : Char → Bool} {c : Char} {l : Str}
    (h : p c = false) : (c :: l).dropWhile p = c :: l := by
  simp [List.dropWhile_cons, h]

/-- parseInt of a non-empty all-digit string returns its value. -/
theorem jsParseInt_digits {l : Str} (hne : l ≠ [])
    (hd : ∀ c ∈ l, c.isDigit = true) :
    jsParseInt l = some (digitsToNat l : Int) := by
  cases l with
  | nil => exact absurd rfl hne
  | cons c rest =>
    have hcd : c.isDigit = true := hd c (List.mem_cons_self c rest)
    unfold jsParseInt
    rw [dropWhile_eq_self_of_head (isDigit_not_space hcd)]
    simp only
    rw [if_neg (isDigit_ne_minus hcd), if_neg (isDigit_ne_plus hcd)]
    rw [takeWhile_eq_self_of_all hd]

/-- Splitting a colon-free string yields that string as a single chunk. -/
theorem splitColon_no_colon : ∀ {l : Str}, (∀ c ∈ l, c ≠ ':') →
    splitColon l = [l] := by
  intro l
  induction l with
  | nil => intro _; rfl
  | cons c rest ih =>
    intro h
    unfold splitColon
    rw [if_neg (h c (List.mem_cons_self c rest))]
    rw [ih (fun x hx => h x (List.mem_cons_of_mem c hx))]

/-- Splitting peels off a colon-free chunk before the first colon. -/
theorem splitColon_append {xs : Str} (ys : Str)
    (h : ∀ c ∈ xs, c ≠ ':') :
    splitColon (xs ++ ':' :: ys) = xs :: splitColon ys := by
  induction xs with
  | nil => simp [splitColon]
  | cons c rest ih =>
    have hc : c ≠ ':' := h c (List.mem_cons_self c rest)
    have h2 := ih (fun x hx => h x (List.mem_cons_of_mem c hx))
    simp only [List.cons_append]
    rw [splitColon, if_neg hc, h2]

theorem pad2_digits {l : Str} (hd : ∀ c ∈ l, c.isDigit = true) :
    ∀ c ∈ pad2 l, c.isDigit = true := by
  intro c hc
  unfold pad2 at hc
  split at hc
  · rcases List.mem_append.mp hc with h | h
    · have := List.eq_of_mem_replicate h
      subst this; decide
    · exact hd c h
  · exact hd c hc

theorem pad2_ne_nil (l : Str) : pad2 l ≠ [] := by
  unfold pad2
  split
  · rename_i h
    cases l with
    | nil => simp
    | cons a b => simp
  · rename_i h
    cases l with
    | nil => simp at h
    | cons a b => simp

theorem digitsToNat_pad2 (l : Str) : digitsToNat (pad2 l) = digitsToNat l := by
  unfold pad2
  split
  · rename_i h
    cases l with
    | nil => decide
    | cons a b =>
      cases b with
      | nil => simp [digitsToNat, List.foldl, digitVal]
      | cons x y => simp at h; omega
  · rfl

/-! ### Dynamically typed values produced by fast-xml-parser

With `parseTagValue`/`parseAttributeValue` on, a leaf value is a string, a
number or a boolean.  `truthyPrim` embeds JS truthiness for these. -/

/-- A primitive JS value as produced by the XML parser. -/
inductive JPrim where
  | jstr (s : Str)
  | jnum (n : Int)
  | jbool (b : Bool)
  deriving DecidableEq, Repr

/-- JS truthiness of a primitive value (`''`, `0` and `false` are falsy).
NaN never reaches these slots from the XML parser, so it is not represented. -/
def truthyPrim : JPrim → Bool
  | .jstr s => !s.isEmpty
  | .jnum n => n != 0
  | .jbool b => b

/-- JS truthiness of a possibly-`undefined` primitive. -/
def truthyOpt : Option JPrim → Bool
  | none => false
  | some p => truthyPrim p

/-- JS `a || b` on possibly-`undefined` primitives. -/
def jsOr (a b : Option JPrim) : Option JPrim :=
  if truthyOpt a then a else b

/-- JS `a || b` with a primitive default on the right. -/
def jsOrD (a : Option JPrim) (d : JPrim) : JPrim :=
  if truthyOpt a then a.getD d else d

/-- JS `String(v)` / `v.toString()` for a primitive. -/
def jsToString : JPrim → Str
  | .jstr s => s
  | .jnum n => intRepr n
  | .jbool b => if b then ['t','r','u','e'] else ['f','a','l','s','e']

/-! ### DurationNormalizer

Two copies of `parseDuration` exist in the repository: one inside the feed
mapper (`server/utils/feed-parser.ts`, src/unnamed/part_004 lines 9-32) and
one in `app/utils/format.ts` lines 71-94.  They differ in exactly one spot:
the one-part branch of the format.ts copy is guarded by `!isNaN(parts[0])`,
the feed-mapper copy is not. -/

/-- NaN-propagating multiplication by a constant (`NaN * k` is `NaN`). -/
def mulJ (a : JNum) (k : Int) : JNum := a.map (· * k)

/-- NaN-propagating addition. -/
def addJ (a b : JNum) : JNum :=
  match a, b with
  | some x, some y => some (x + y)
  | _, _ => none

/-- Shared part of both copies: split on ':', `parseInt` each part, then
combine according to the number of parts.  `oneGuard` tells whether the
single-part branch is guarded by `!isNaN(parts[0])` (format.ts) or not
(feed mapper). -/
def durFromString (oneGuard : Bool) (s : Str) : JNum :=
  let parts := (splitColon s).map jsParseInt
  match parts with
  | [a, b, c] => addJ (addJ (mulJ a 3600) (mulJ b 60)) c
  | [a, b] => addJ (mulJ a 60) b
  | [a] =>
    if oneGuard then
      match a with
      | some v => some v
      | none => some 0
    else a
  | _ => some 0

/-- Common shape of `parseDuration(duration)`: falsy input is 0, numeric
input is floored (integers are modelled, so the floor is the identity),
otherwise the string is split on ':' and parsed. -/
def parseDurationWith (oneGuard : Bool) (input : Option JPrim) : JNum :=
  match input with
  | none => some 0
  | some p =>
    if !truthyPrim p then some 0
    else
      match p with
      | .jnum n => some n
      | _ => durFromString oneGuard (jsToString p)

/-- `parseDuration` as defined in the feed mapper (no isNaN guard on the
plain-seconds branch): src/unnamed/part_004 lines 9-32. -/
def parseDurationMapper (input : Option JPrim) : JNum :=
  parseDurationWith false input

/-- `parseDuration` as defined in app/utils/format.ts lines 71-94 (the
plain-seconds branch requires `!isNaN(parts[0])`). -/
def parseDurationFormat (input : Option JPrim) : JNum :=
  parseDurationWith true input

/-- Core of `formatDuration` on a non-negative integer second count:
`hours:minutes:secs` with 2-padded minutes and seconds when there are hours,
else `minutes:secs` with 2-padded seconds. -/
def formatDurationN (m : Nat) : Str :=
  let hours := m / 3600
  let minutes := (m % 3600) / 60
  let secs := m % 60
  if hours > 0 then
    natRepr hours ++ ':' :: pad2 (natRepr minutes) ++ ':' :: pad2 (natRepr secs)
  else
    natRepr minutes ++ ':' :: pad2 (natRepr secs)

/-- `formatDuration` from app/utils/format.ts lines 24-35, restricted to
integer inputs (the NaN/Infinity guard and `Math.floor` on fractional input
are outside the integer model; the claims quantify over integers). -/
def formatDuration (n : Int) : Str :=
  if n < 0 then ['0',':','0','0'] else formatDurationN n.toNat

/-! ### Duration lemmas -/

theorem jsParseInt_natRepr (k : Nat) : jsParseInt (natRepr k) = some (k : Int) := by
  rw [jsParseInt_digits (natRepr_ne_nil _) (natRepr_digits k), digitsToNat_natRepr]

theorem jsParseInt_pad2_natRepr (k : Nat) :
    jsParseInt (pad2 (natRepr k)) = some (k : Int) := by
  rw [jsParseInt_digits (pad2_ne_nil _) (pad2_digits (natRepr_digits k)),
    digitsToNat_pad2, digitsToNat_natRepr]

theorem formatDurationN_ne_nil (m : Nat) : formatDurationN m ≠ [] := by
  simp only [formatDurationN]
  split <;> simp [natRepr_ne_nil]

/-- Parsing back the formatted duration recovers the second count. -/
theorem durFromString_formatN (m : Nat) :
    durFromString true (formatDurationN m) = some (m : Int) := by
  have hno1 : ∀ c ∈ natRepr (m / 3600), c ≠ ':' :=
    fun c hc => isDigit_ne_colon (natRepr_digits _ c hc)
  have hno2 : ∀ c ∈ pad2 (natRepr (m % 3600 / 60)), c ≠ ':' :=
    fun c hc => isDigit_ne_colon (pad2_digits (natRepr_digits _) c hc)
  have hno2b : ∀ c ∈ natRepr (m % 3600 / 60), c ≠ ':' :=
    fun c hc => isDigit_ne_colon (natRepr_digits _ c hc)
  have hno3 : ∀ c ∈ pad2 (natRepr (m % 60)), c ≠ ':' :=
    fun c hc => isDigit_ne_colon (pad2_digits (natRepr_digits _) c hc)
  unfold formatDurationN durFromString
  by_cases hh : m / 3600 > 0
  · simp only [if_pos hh, List.cons_append, List.append_assoc]
    rw [splitColon_append _ hno1, splitColon_append _ hno2,
      splitColon_no_colon hno3]
    simp only [List.map, jsParseInt_natRepr, jsParseInt_pad2_natRepr]
    simp [addJ, mulJ]
    omega
  · simp only [if_neg hh]
    rw [splitColon_append _ hno2b, splitColon_no_colon hno3]
    simp only [List.map, jsParseInt_natRepr, jsParseInt_pad2_natRepr]
    simp [addJ, mulJ]
    omega

/-- **C3.** The two `parseDuration` copies disagree on a colon-free
non-numeric string.  The spec (and the display-utility copy in format.ts)
says such input degrades to 0; the feed-mapper copy, whose plain-seconds
branch lacks the `!isNaN(parts[0])` guard, evaluates `"abc"` to NaN
(`none`) instead.  Absent and empty inputs do yield 0 in both copies. -/
theorem c3_parseDuration_nonNumeric_divergence :
    parseDurationMapper (some (JPrim.jstr ['a','b','c'])) = none ∧
    parseDurationFormat (some (JPrim.jstr ['a','b','c'])) = some 0 ∧
    (∀ g, parseDurationWith g none = some 0) ∧
    (∀ g, parseDurationWith g (some (JPrim.jstr [])) = some 0) := by
  decide

/-- **C5.** `formatDuration` is an exact right inverse of the format.ts
`parseDuration` on every non-negative integer second count. -/
theorem c5_parseDuration_formatDuration (n : Nat) :
    parseDurationFormat (some (JPrim.jstr (formatDuration (n : Int)))) =
      some (n : Int) := by
  have h0 : ¬((n : Int) < 0) := by omega
  have hne : (formatDuration (n : Int)).isEmpty = false := by
    rw [formatDuration, if_neg h0]
    cases hfd : formatDurationN (n : Int).toNat with
    | nil => exact absurd hfd (formatDurationN_ne_nil _)
    | cons a b => rfl
  unfold parseDurationFormat parseDurationWith
  simp only [truthyPrim, hne, Bool.not_false, Bool.not_true, if_false, jsToString]
  rw [formatDuration, if_neg h0]
  have ht : ((n : Int)).toNat = n := by omega
  rw [ht]
  exact durFromString_formatN n

/-! ### SlugGenerator

`server/utils/slug.ts` is not among the provided sources; only its unit
tests (tests/unit/server/slug.test.ts) and its callers are.  `generateSlug`
below is therefore modelled from the spec (§4.2, steps 1-9) and validated
against the expectations recorded in the unit tests. -/

/-- The straight apostrophe character. -/
def apos : Char := Char.ofNat 39

/-- Characters kept verbatim by the slug alphabet `[a-z0-9]`. -/
def isLowerAlnum (c : Char) : Bool :=
  ('a' ≤ c && c ≤ 'z') || ('0' ≤ c && c ≤ '9')

/-- ASCII portion of the JS regex class `\w`. -/
def isWordChar (c : Char) : Bool :=
  ('a' ≤ c && c ≤ 'z') || ('A' ≤ c && c ≤ 'Z') ||
    ('0' ≤ c && c ≤ '9') || c = '_'

/-- Spec §4.2 step 3: every `&` becomes the literal text `and`. -/
def expandAmp (l : Str) : Str :=
  (l.map (fun c => if c = '&' then ['a', 'n', 'd'] else [c])).flatten

/-- Spec §4.2 step 4: straight apostrophes are removed outright. -/
def removeApos (l : Str) : Str := l.filter (fun c => c ≠ apos)

/-- Spec §4.2 step 5: every character outside `[a-z0-9]` becomes a hyphen.
(The regex replaces a whole run with one hyphen; composed with the run
collapsing of step 6 the per-character replacement is equivalent.) -/
def dashify (l : Str) : Str :=
  l.map (fun c => if isLowerAlnum c then c else '-')

/-- Spec §4.2 step 6: collapse every run of hyphens to a single hyphen. -/
def collapseDashes : Str → Str
  | [] => []
  | [c] => [c]
  | a :: b :: rest =>
    if a = '-' && b = '-' then collapseDashes (b :: rest)
    else a :: collapseDashes (b :: rest)

/-- Drop trailing hyphens. -/
def stripEndDashes (l : Str) : Str :=
  (l.reverse.dropWhile (fun c => c = '-')).reverse

/-- Spec §4.2 step 7: strip leading and trailing hyphens. -/
def stripDashes (l : Str) : Str :=
  stripEndDashes (l.dropWhile (fun c => c = '-'))

/-- Steps 2-7 applied to the title. -/
def slugCore (t : Str) : Str :=
  stripDashes (collapseDashes (dashify (removeApos (expandAmp
    (t.map Char.toLower)))))

/-- Spec §4.2 step 8: prepend `{episodeNumber}-` when a number is given. -/
def withEpisodeNumber (n : Option Int) (core : Str) : Str :=
  match n with
  | none => core
  | some k => intRepr k ++ '-' :: core

/-- Keep everything before the last hyphen of `t` (the last word boundary);
a boundary-free string is returned unchanged. -/
def cutAtBoundary (t : Str) : Str :=
  if '-' ∈ t then ((t.reverse.dropWhile (fun c => c ≠ '-')).drop 1).reverse
  else t

/-- Spec §4.2 step 9: results longer than 100 characters are truncated to
the last word boundary at or before index 100, never leaving a trailing
hyphen. -/
def truncate100 (s : Str) : Str :=
  if s.length ≤ 100 then s else stripEndDashes (cutAtBoundary (s.take 100))

/-- Modelled from the spec: `generateSlug(title, episodeNumber?)` of the
missing `server/utils/slug.ts`, following §4.2 steps 1-9 (empty title gives
the empty slug with no number applied; lowercase; `&` to `and`; apostrophes
removed; non-alphanumeric runs to single hyphens; hyphens collapsed and
stripped at the ends; optional `{n}-` in front; word-boundary truncation
at 100). -/
def generateSlug (title : Str) (episodeNumber : Option Int) : Str :=
  if title.isEmpty then []
  else truncate100 (withEpisodeNumber episodeNumber (slugCore title))

/-! The model agrees with the repository's unit tests: -/

example : generateSlug ("Hello World".toList) none = ("hello-world".toList) := by
  decide

example : generateSlug ("My GREAT Podcast Episode".toList) none =
    ("my-great-podcast-episode".toList) := by decide

example : generateSlug ("  hello world  ".toList) none = ("hello-world".toList) := by
  decide

example : generateSlug ("Salt & Pepper".toList) none = ("salt-and-pepper".toList) := by
  decide

example : generateSlug ("A & B & C".toList) none = ("a-and-b-and-c".toList) := by
  decide

example : generateSlug ("Hello! How are you?".toList) none =
    ("hello-how-are-you".toList) := by decide

example : generateSlug ("Episode (Part 1) [Remastered]".toList) none =
    ("episode-part-1-remastered".toList) := by decide

example : generateSlug ("Ep 42: The Answer - Part 2; Finale".toList) none =
    ("ep-42-the-answer-part-2-finale".toList) := by decide

example : generateSlug ("Dr. Smith, Ph.D.".toList) none =
    ("dr-smith-ph-d".toList) := by decide

example : generateSlug ("hello---world".toList) none = ("hello-world".toList) := by
  decide

example : generateSlug ("---hello".toList) none = ("hello".toList) := by decide

example : generateSlug ("hello---".toList) none = ("hello".toList) := by decide

example : generateSlug ("a!@#$%b".toList) none = ("a-b".toList) := by decide

example : generateSlug ("My Episode".toList) (some 42) =
    ("42-my-episode".toList) := by decide

example : generateSlug ("Intro".toList) (some 0) = ("0-intro".toList) := by decide

example : generateSlug ("Test".toList) (some (-1)) = ("-1-test".toList) := by decide

example : generateSlug ("".toList) none = [] := by decide

example : generateSlug ("!@#$%^&*()".toList) none = ("and".toList) := by decide

example : generateSlug ("   ".toList) none = [] := by decide

example : generateSlug ("---".toList) none = [] := by decide

example : generateSlug ("&".toList) none = ("and".toList) := by decide

/-- Removal of straight apostrophes (and hyphenation of curly ones, which
are not special-cased). -/
example : generateSlug (['i', 't', apos, 's', ' ', 'o', 'k']) none =
    ("its-ok".toList) := by decide

/-! ### PersonAggregator slug (server/api/podcast/people.get.ts lines 48-55) -/

/-- JS `String.prototype.trim()` (whitespace only). -/
def jsTrim (l : Str) : Str :=
  ((l.dropWhile isSpaceChar).reverse.dropWhile isSpaceChar).reverse

/-- `personSlug(name)` from the people endpoints: lowercase, strip
characters outside `\w`, whitespace and hyphen, turn whitespace into
hyphens, collapse hyphen runs, trim.  (The source replaces each whitespace
run by one hyphen; per-character replacement composed with the following
hyphen collapsing is equivalent.) -/
def personSlug (name : Str) : Str :=
  jsTrim (collapseDashes
    ((name.map Char.toLower).filter
        (fun c => isWordChar c || isSpaceChar c || c = '-')
      |>.map (fun c => if isSpaceChar c then '-' else c)))

example : personSlug ("Jane Host".toList) = ("jane-host".toList) := by decide

example : personSlug ("Dr.  Jane  Q. Host".toList) = ("dr-jane-q-host".toList) := by
  decide

/-! ### Slug-generator lemmas (claim C9) -/

theorem head?_dropWhile_false {p : Char → Bool} :
    ∀ {l : Str} {c : Char}, (l.dropWhile p).head? = some c → p c = false := by
  intro l
  induction l with
  | nil => intro c hc; simp [List.dropWhile] at hc
  | cons a rest ih =>
    intro c hc
    by_cases hp : p a = true
    · rw [List.dropWhile_cons, if_pos hp] at hc
      exact ih hc
    · rw [List.dropWhile_cons, if_neg hp] at hc
      simp only [List.head?_cons, Option.some.injEq] at hc
      subst hc
      simpa using hp

theorem stripEndDashes_getLast {l : Str} {c : Char}
    (h : (stripEndDashes l).getLast? = some c) : c ≠ '-' := by
  unfold stripEndDashes at h
  rw [List.getLast?_reverse] at h
  have := head?_dropWhile_false h
  simpa using this

theorem stripEndDashes_length (l : Str) :
    (stripEndDashes l).length ≤ l.length := by
  unfold stripEndDashes
  simp only [List.length_reverse]
  have := List.Sublist.length_le
    (List.dropWhile_sublist (l := l.reverse) (fun c => c = '-'))
  simpa using this

theorem cutAtBoundary_length (t : Str) : (cutAtBoundary t).length ≤ t.length := by
  unfold cutAtBoundary
  split
  · simp only [List.length_reverse, List.length_drop]
    have h1 := List.Sublist.length_le
      (List.dropWhile_sublist (l := t.reverse) (fun c => c ≠ '-'))
    simp only [List.length_reverse] at h1
    omega
  · exact le_refl _

theorem truncate100_length (s : Str) : (truncate100 s).length ≤ 100 := by
  unfold truncate100
  split
  · assumption
  · have h1 := stripEndDashes_length (cutAtBoundary (s.take 100))
    have h2 := cutAtBoundary_length (s.take 100)
    have h3 : (s.take 100).length ≤ 100 := by simp [List.length_take]
    omega

theorem truncate100_getLast {s : Str}
    (hs : ∀ c, s.getLast? = some c → c ≠ '-') :
    ∀ c, (truncate100 s).getLast? = some c → c ≠ '-' := by
  intro c hc
  unfold truncate100 at hc
  split at hc
  · exact hs c hc
  · exact stripEndDashes_getLast hc

theorem slugCore_getLast (t : Str) :
    ∀ c, (slugCore t).getLast? = some c → c ≠ '-' := by
  intro c hc
  unfold slugCore stripDashes at hc
  exact stripEndDashes_getLast hc

/-- **C9 (amended).** Every generated slug has length at most 100, and it
never ends in a hyphen *provided* the normalized title is non-empty or no
episode number is supplied.  (The claim's unconditional "never ends in a
hyphen" fails in the degenerate case witnessed below.) -/
theorem c9_generateSlug_bounds (t : Str) (n : Option Int) :
    (generateSlug t n).length ≤ 100 ∧
    (slugCore t ≠ [] → ∀ c, (generateSlug t n).getLast? = some c → c ≠ '-') ∧
    (n = none → ∀ c, (generateSlug t n).getLast? = some c → c ≠ '-') := by
  refine ⟨?_, ?_, ?_⟩
  · unfold generateSlug
    split
    · simp
    · exact truncate100_length _
  · intro hcore c hc
    unfold generateSlug at hc
    split at hc
    · simp at hc
    · refine truncate100_getLast ?_ c hc
      intro d hd
      cases n with
      | none => exact slugCore_getLast t d (by simpa [withEpisodeNumber] using hd)
      | some k =>
        simp only [withEpisodeNumber] at hd
        rw [List.getLast?_append_of_ne_nil _ (by simp)] at hd
        cases hsc : slugCore t with
        | nil => exact absurd hsc hcore
        | cons x xs =>
          rw [hsc, List.getLast?_cons_cons] at hd
          exact slugCore_getLast t d (by rw [hsc]; exact hd)
  · intro hn c hc
    subst hn
    unfold generateSlug at hc
    split at hc
    · simp at hc
    · exact truncate100_getLast
        (fun d hd => slugCore_getLast t d (by simpa [withEpisodeNumber] using hd))
        c hc

/-- **C9 (counterexample).** A title that normalizes to the empty slug,
combined with an episode number, produces `"5-"`: the slug ends in a
hyphen, contradicting the claim's unconditional "never ends in a hyphen".
(Length stays within bounds.) -/
theorem c9_trailing_hyphen_counterexample :
    generateSlug ("!!!".toList) (some 5) = ['5', '-'] ∧
    (generateSlug ("!!!".toList) (some 5)).getLast? = some '-' := by
  decide

/-- Witness for `c9_generateSlug_bounds` at a concrete input. -/
theorem c9_generateSlug_bounds_witness :
    (generateSlug ("hello world".toList) (some 7)).length ≤ 100 ∧
    (generateSlug ("hello world".toList) (some 7)).getLast? ≠ some '-' := by
  have h := c9_generateSlug_bounds ("hello world".toList) (some 7)
  exact ⟨h.1, fun hc => h.2.1 (by decide) '-' hc rfl⟩

/-! ### XmlFeedMapper (server/utils/feed-parser.ts, src/unnamed/part_004)

The model starts from the already-parsed XML tree (the fetch and the
XML-parse steps of lines 148-181 abort before any mapping happens and are
not modelled; the claims concern what happens once a tree is available).
Repeated tags surface as arrays, single tags as plain nodes, which
`NodeOrList` captures.  Structures carry the fields the mapper reads. -/

/-- A tag that fast-xml-parser exposes as absent, a single node, or an
array of nodes. -/
inductive NodeOrList (α : Type) where
  | absent
  | single (a : α)
  | list (l : List α)
  deriving DecidableEq

/-- The `<enclosure>` tag: each of url/type/length may live in an
attribute (`@_`-prefixed) or in a child field. -/
structure Enclosure where
  urlAttr : Option JPrim
  urlField : Option JPrim
  typeAttr : Option JPrim
  typeField : Option JPrim
  lenAttr : Option JPrim
  lenField : Option JPrim
  deriving DecidableEq

/-- The `<guid>` node: absent, a primitive value, or (when the tag carries
attributes) an object whose text sits under `#text`. -/
inductive GuidNode where
  | absent
  | prim (p : JPrim)
  | obj (text : Option JPrim)
  deriving DecidableEq

/-- Fields read from one `podcast:transcript` node (lines 77-81). -/
structure RawTranscript where
  urlAttr : Option JPrim
  urlField : Option JPrim
  typeAttr : Option JPrim
  typeField : Option JPrim
  langAttr : Option JPrim
  langField : Option JPrim
  deriving DecidableEq

/-- A normalized transcript reference. -/
structure TranscriptRef where
  url : JPrim
  type : JPrim
  language : Option JPrim
  deriving DecidableEq

/-- Line 77-81: `url: t['@_url'] || t.url || ''`, `type: ... || 'text/plain'`,
`language: t['@_language'] || t.language`. -/
def normTranscript (t : RawTranscript) : TranscriptRef :=
  { url := jsOrD (jsOr t.urlAttr t.urlField) (.jstr [])
    type := jsOrD (jsOr t.typeAttr t.typeField) (.jstr ("text/plain".toList))
    language := jsOr t.langAttr t.langField }

def vttType : JPrim := .jstr ("text/vtt".toList)

def srtType : JPrim := .jstr ("application/x-subrip".toList)

def plainType : JPrim := .jstr ("text/plain".toList)

/-- Lines 83-94: prefer VTT, else SRT, else plain text, else the first
transcript; keep the preferred one only when its URL is truthy. -/
def selectTranscript (ts : List RawTranscript) : Option TranscriptRef :=
  let mts := ts.map normTranscript
  let preferred :=
    match mts.find? (fun t : TranscriptRef => t.type == vttType) with
    | some t => some t
    | none =>
      match mts.find? (fun t : TranscriptRef => t.type == srtType) with
      | some t => some t
      | none =>
        match mts.find? (fun t : TranscriptRef => t.type == plainType) with
        | some t => some t
        | none => mts.head?
  match preferred with
  | some p => if truthyPrim p.url then some p else none
  | none => none

/-- Lines 74-95: the transcript part of `parsePodcast2Tags`; the guard
`if (item['podcast:transcript'])` skips an absent tag, and a single node
is wrapped into a one-element array. -/
def extractTranscript : NodeOrList RawTranscript → Option TranscriptRef
  | .absent => none
  | .single t => selectTranscript [t]
  | .list l => selectTranscript l

/-- Fields of an `<item>` read by the episode loop (lines 214-276). -/
structure Item where
  title : Option JPrim
  guid : GuidNode
  enclosure : Option Enclosure
  itunesDuration : Option JPrim
  pubDate : Option JPrim
  itunesEpisode : Option JPrim
  transcript : NodeOrList RawTranscript
  deriving DecidableEq

/-- Fields of the `<channel>` read by the model (title for the podcast
record, the items for the episode list). -/
structure ChannelM where
  title : Option JPrim
  item : NodeOrList Item
  deriving DecidableEq

/-- The value stored in `Episode.guid`: line 248 can leak the raw guid
object itself through `|| item.guid` when the object's `#text` is falsy. -/
inductive GuidVal where
  | prim (p : JPrim)
  | obj (text : Option JPrim)
  deriving DecidableEq

/-- Line 248: `item.guid?.['#text'] || item.guid || audioUrl`.  A primitive
guid contributes no `#text`; an object is always truthy as the middle
operand. -/
def guidOf (g : GuidNode) (audioUrl : JPrim) : GuidVal :=
  match g with
  | .absent => .prim audioUrl
  | .prim p => if truthyPrim p then .prim p else .prim audioUrl
  | .obj t =>
    match t with
    | some tp => if truthyPrim tp then .prim tp else .obj t
    | none => .obj none

/-- The episode fields the claims are about, built exactly as in lines
247-273.  Presentation-only fields (description, htmlContent, artwork,
season, episodeType, explicit, keywords, link) are orthogonal to every
claim and are not carried. -/
structure EpisodeM where
  guid : GuidVal
  title : Str
  slug : Str
  audioUrl : JPrim
  audioType : JPrim
  audioLength : JNum
  pubDate : JPrim
  duration : JNum
  episodeNumber : Option JNum
  transcript : Option TranscriptRef
  deriving DecidableEq

/-- Lines 228-230: `item['itunes:episode'] ? parseInt(item['itunes:episode'], 10) : undefined`. -/
def episodeNumberOf (v : Option JPrim) : Option JNum :=
  if truthyOpt v then some (jsParseInt (jsToString (v.getD (.jstr [])))) else none

/-- Bridge from a parsed episode number to the slug generator's integer
argument (a NaN episode number would render as a `NaN-` text prefix in JS;
that path is outside the integer model and unused by the claims). -/
def slugNumOf : Option JNum → Option Int
  | none => none
  | some none => none
  | some (some k) => some k

/-- Lines 217-275 for one item: items without an enclosure, or whose
enclosure yields no truthy audio URL, produce no episode. -/
def buildEpisode (now : Str) (it : Item) : Option EpisodeM :=
  match it.enclosure with
  | none => none
  | some enc =>
    match jsOr enc.urlAttr enc.urlField with
    | none => none
    | some u =>
      if truthyPrim u then
        let titleStr := jsToString (jsOrD it.title (.jstr ("Untitled Episode".toList)))
        let en := episodeNumberOf it.itunesEpisode
        some
          { guid := guidOf it.guid u
            title := titleStr
            slug := generateSlug titleStr (slugNumOf en)
            audioUrl := u
            audioType := jsOrD (jsOr enc.typeAttr enc.typeField)
              (.jstr ("audio/mpeg".toList))
            audioLength := jsParseInt (jsToString
              (jsOrD (jsOr enc.lenAttr enc.lenField) (.jstr ['0'])))
            pubDate := jsOrD it.pubDate (.jstr now)
            duration := parseDurationMapper it.itunesDuration
            episodeNumber := en
            transcript := extractTranscript it.transcript }
      else none

/-- Line 211 and 214-215: `Array.isArray(channel.item) ? channel.item :
[channel.item]`, with `if (!item) continue` skipping the placeholder that
an absent tag leaves behind. -/
def itemsOf : NodeOrList Item → List (Option Item)
  | .absent => [none]
  | .single i => [some i]
  | .list l => l.map some

/-- The podcast fields carried by the model. -/
structure PodcastM where
  title : Str
  feedUrl : Str
  deriving DecidableEq

structure PodcastFeedM where
  podcast : PodcastM
  episodes : List EpisodeM
  deriving DecidableEq

inductive FeedError where
  | missingChannel
  deriving DecidableEq

deriving instance DecidableEq for Except

/-- The parsed XML root as far as line 184 (`rss?.rss?.channel`) is
concerned: `none` when the optional chain does not resolve to a channel
node. -/
abbrev ParsedDoc := Option ChannelM

/-- Lines 183-282: resolving no channel is fatal (line 185-187); otherwise
the podcast record and the episode list are built.  `now` stands for the
wall clock read by `new Date().toISOString()` on line 256. -/
def parsePodcastFeed (feedUrl : Str) (now : Str) (doc : ParsedDoc) :
    Except FeedError PodcastFeedM :=
  match doc with
  | none => .error .missingChannel
  | some ch =>
    .ok
      { podcast :=
          { title := jsToString (jsOrD ch.title (.jstr ("Untitled Podcast".toList)))
            feedUrl := feedUrl }
        episodes := (itemsOf ch.item).filterMap (fun oi => oi.bind (buildEpisode now)) }

/-! Concrete sample data shared by several witnesses (mirrors the minimal
feed of the unit tests and the spec's end-to-end scenario). -/

def sampleEnclosure : Enclosure :=
  { urlAttr := some (.jstr ("https://example.com/ep1.mp3".toList))
    urlField := none
    typeAttr := some (.jstr ("audio/mpeg".toList))
    typeField := none
    lenAttr := some (.jnum 12345678)
    lenField := none }

def sampleItem : Item :=
  { title := some (.jstr ("Episode 1".toList))
    guid := .absent
    enclosure := some sampleEnclosure
    itunesDuration := none
    pubDate := none
    itunesEpisode := none
    transcript := .absent }

def sampleItemNoAudio : Item :=
  { title := some (.jstr ("Blog Post Without Audio".toList))
    guid := .absent
    enclosure := none
    itunesDuration := none
    pubDate := none
    itunesEpisode := none
    transcript := .absent }

def sampleChannel : ChannelM :=
  { title := some (.jstr ("My Podcast".toList))
    item := .list [sampleItem, sampleItemNoAudio] }

def sampleFeedUrl : Str := "https://example.com/feed.xml".toList

def sampleNow : Str := "2024-01-01T00:00:00.000Z".toList

def sampleEpisode : EpisodeM :=
  { guid := .prim (.jstr ("https://example.com/ep1.mp3".toList))
    title := "Episode 1".toList
    slug := "episode-1".toList
    audioUrl := .jstr ("https://example.com/ep1.mp3".toList)
    audioType := .jstr ("audio/mpeg".toList)
    audioLength := some 12345678
    pubDate := .jstr sampleNow
    duration := some 0
    episodeNumber := none
    transcript := none }

def sampleFeed : PodcastFeedM :=
  { podcast := { title := "My Podcast".toList, feedUrl := sampleFeedUrl }
    episodes := [sampleEpisode] }

/-- The model reproduces the spec's end-to-end scenario: one playable item,
one audio-less item, guid falling back to the audio URL. -/
example :
    parsePodcastFeed sampleFeedUrl sampleNow (some sampleChannel) =
      .ok sampleFeed := by decide

/-- **C1.** Every episode in a successfully parsed feed carries a truthy —
in particular non-empty — audio URL: items without an enclosure, or whose
enclosure yields no truthy URL, never reach the output. -/
theorem c1_every_episode_has_audio (url now : Str) (doc : ParsedDoc)
    (feed : PodcastFeedM) (hok : parsePodcastFeed url now doc = .ok feed) :
    ∀ ep ∈ feed.episodes,
      truthyPrim ep.audioUrl = true ∧ ep.audioUrl ≠ JPrim.jstr [] := by
  intro ep hep
  cases doc with
  | none => simp [parsePodcastFeed] at hok
  | some ch =>
    simp only [parsePodcastFeed, Except.ok.injEq] at hok
    subst hok
    simp only [List.mem_filterMap] at hep
    obtain ⟨oi, hmem, hoi⟩ := hep
    cases oi with
    | none => simp at hoi
    | some it =>
      simp only [Option.some_bind] at hoi
      unfold buildEpisode at hoi
      cases henc : it.enclosure with
      | none => rw [henc] at hoi; simp at hoi
      | some enc =>
        simp only [henc] at hoi
        cases hau : jsOr enc.urlAttr enc.urlField with
        | none => simp only [hau] at hoi; simp at hoi
        | some u =>
          simp only [hau] at hoi
          by_cases ht : truthyPrim u = true
          · simp only [ht, if_true, Option.some.injEq] at hoi
            subst hoi
            refine ⟨ht, ?_⟩
            intro hu
            have hu2 : u = JPrim.jstr [] := hu
            rw [hu2] at ht
            simp [truthyPrim] at ht
          · simp [ht] at hoi

/-- Witness for `c1_every_episode_has_audio` on the sample feed. -/
theorem c1_every_episode_has_audio_witness :
    truthyPrim sampleEpisode.audioUrl = true ∧
      sampleEpisode.audioUrl ≠ JPrim.jstr [] :=
  c1_every_episode_has_audio sampleFeedUrl sampleNow (some sampleChannel)
    sampleFeed (by decide) sampleEpisode (by decide)

/-- **C8.** A document that does not resolve to an `rss.channel` node makes
the whole parse fail with the missing-channel error; no feed value (hence
no `Podcast` and no `Episode`) is produced. -/
theorem c8_missing_channel_fatal (url now : Str) (doc : ParsedDoc)
    (h : doc = none) :
    parsePodcastFeed url now doc = .error .missingChannel ∧
    (parsePodcastFeed url now doc).toOption = none := by
  subst h
  exact ⟨rfl, rfl⟩

/-- Witness for `c8_missing_channel_fatal`. -/
theorem c8_missing_channel_fatal_witness :
    parsePodcastFeed sampleFeedUrl sampleNow none = .error .missingChannel ∧
    (parsePodcastFeed sampleFeedUrl sampleNow none).toOption = none :=
  c8_missing_channel_fatal sampleFeedUrl sampleNow none rfl

/-! ### Claim C7: guid resolution -/

def c7Enclosure : Enclosure :=
  { urlAttr := some (.jstr ("https://example.com/a.mp3".toList))
    urlField := none
    typeAttr := none
    typeField := none
    lenAttr := none
    lenField := none }

/-- An item whose `<guid>` element is present but empty (`<guid></guid>`
parses to the empty string). -/
def c7Item : Item :=
  { title := none
    guid := .prim (.jstr [])
    enclosure := some c7Enclosure
    itunesDuration := none
    pubDate := none
    itunesEpisode := none
    transcript := .absent }

def c7Doc : ParsedDoc := some { title := none, item := .single c7Item }

/-- **C7 (counterexample).** An item with a *present* but empty `<guid>`
gets the enclosure URL as its episode guid, not the guid's value: the `||`
chain of line 248 treats every falsy guid value as absent. -/
theorem c7_empty_guid_counterexample :
    c7Item.guid = GuidNode.prim (JPrim.jstr []) ∧
    (parsePodcastFeed sampleFeedUrl sampleNow c7Doc).toOption.map
        (fun f => f.episodes.map (fun e => e.guid)) =
      some [GuidVal.prim (JPrim.jstr ("https://example.com/a.mp3".toList))] ∧
    GuidVal.prim (JPrim.jstr ("https://example.com/a.mp3".toList)) ≠
      GuidVal.prim (JPrim.jstr []) := by
  decide

/-- **C7 (amended).** For an item with a usable enclosure URL: with no
`<guid>` element the episode guid is the audio URL; a present guid with a
truthy primitive value (or a truthy `#text` node) is used instead; a
present but falsy guid value also falls back to the audio URL (the
counterexample above). -/
theorem c7_guid_resolution (url now : Str) (ch : ChannelM)
    (feed : PodcastFeedM)
    (hok : parsePodcastFeed url now (some ch) = .ok feed)
    (it : Item) (hmem : some it ∈ itemsOf ch.item)
    (enc : Enclosure) (henc : it.enclosure = some enc)
    (u : JPrim) (hu : jsOr enc.urlAttr enc.urlField = some u)
    (ht : truthyPrim u = true) :
    (buildEpisode now it).isSome = true ∧
    ∀ ep, buildEpisode now it = some ep →
      ep ∈ feed.episodes ∧ ep.audioUrl = u ∧
      (it.guid = GuidNode.absent → ep.guid = GuidVal.prim u) ∧
      (∀ q, it.guid = GuidNode.prim q → truthyPrim q = true →
        ep.guid = GuidVal.prim q) ∧
      (∀ q, it.guid = GuidNode.prim q → truthyPrim q = false →
        ep.guid = GuidVal.prim u) ∧
      (∀ tp, it.guid = GuidNode.obj (some tp) → truthyPrim tp = true →
        ep.guid = GuidVal.prim tp) := by
  have hbuild : buildEpisode now it =
      some
        { guid := guidOf it.guid u
          title := jsToString (jsOrD it.title (.jstr ("Untitled Episode".toList)))
          slug := generateSlug
            (jsToString (jsOrD it.title (.jstr ("Untitled Episode".toList))))
            (slugNumOf (episodeNumberOf it.itunesEpisode))
          audioUrl := u
          audioType := jsOrD (jsOr enc.typeAttr enc.typeField)
            (.jstr ("audio/mpeg".toList))
          audioLength := jsParseInt (jsToString
            (jsOrD (jsOr enc.lenAttr enc.lenField) (.jstr ['0'])))
          pubDate := jsOrD it.pubDate (.jstr now)
          duration := parseDurationMapper it.itunesDuration
          episodeNumber := episodeNumberOf it.itunesEpisode
          transcript := extractTranscript it.transcript } := by
    unfold buildEpisode
    simp only [henc, hu, ht, if_true]
  refine ⟨by rw [hbuild]; rfl, ?_⟩
  intro ep hep
  rw [hbuild, Option.some.injEq] at hep
  subst hep
  refine ⟨?_, rfl, ?_, ?_, ?_, ?_⟩
  · simp only [parsePodcastFeed, Except.ok.injEq] at hok
    rw [← hok]
    exact List.mem_filterMap.mpr ⟨some it, hmem, by rw [Option.some_bind, hbuild]⟩
  · intro hg
    simp [guidOf, hg]
  · intro q hg htq
    simp [guidOf, hg, htq]
  · intro q hg htq
    simp [guidOf, hg, htq]
  · intro tp hg htp
    simp [guidOf, hg, htp]

/-- Witness for `c7_guid_resolution`: the sample item has no `<guid>`, and
its episode's guid is the enclosure URL. -/
theorem c7_guid_resolution_witness :
    sampleEpisode ∈ sampleFeed.episodes ∧
    sampleEpisode.audioUrl = JPrim.jstr ("https://example.com/ep1.mp3".toList) ∧
    sampleEpisode.guid =
      GuidVal.prim (JPrim.jstr ("https://example.com/ep1.mp3".toList)) := by
  have h := c7_guid_resolution sampleFeedUrl sampleNow sampleChannel sampleFeed
    (by decide) sampleItem (by decide) sampleEnclosure (by decide)
    (JPrim.jstr ("https://example.com/ep1.mp3".toList)) (by decide) (by decide)
  have h2 := h.2 sampleEpisode (by decide)
  exact ⟨h2.1, h2.2.1, h2.2.2.1 (by decide)⟩

/-! ### Claim C6: transcript selection -/

def c6NoUrlVtt : RawTranscript :=
  { urlAttr := none, urlField := none
    typeAttr := some vttType, typeField := none
    langAttr := none, langField := none }

def c6PlainWithUrl : RawTranscript :=
  { urlAttr := some (.jstr ("https://example.com/t.txt".toList)), urlField := none
    typeAttr := some plainType, typeField := none
    langAttr := none, langField := none }

def c6VttWithUrl : RawTranscript :=
  { urlAttr := some (.jstr ("https://example.com/t.vtt".toList)), urlField := none
    typeAttr := some vttType, typeField := none
    langAttr := none, langField := none }

def c6ListW : List RawTranscript := [c6PlainWithUrl, c6VttWithUrl]

/-- **C6 (counterexample).** With multiple transcript tags present, the
extractor can retain *zero* transcripts, not exactly one: the preferred
VTT transcript has no URL, so nothing is kept — even though a usable
plain-text transcript was offered. -/
theorem c6_zero_retained_counterexample :
    extractTranscript (.list [c6NoUrlVtt, c6PlainWithUrl]) = none ∧
    truthyPrim (normTranscript c6PlainWithUrl).url = true := by
  decide

/-- Selection behaviour of lines 83-94: whenever a transcript is retained,
it comes from the offered list, its URL is truthy, and it is chosen in the
preference order VTT, else SRT, else plain text, else first in document
order. -/
theorem selectTranscript_spec (ts : List RawTranscript) (t : TranscriptRef)
    (h : selectTranscript ts = some t) :
    t ∈ ts.map normTranscript ∧ truthyPrim t.url = true ∧
    ((∃ v ∈ ts.map normTranscript, v.type = vttType) → t.type = vttType) ∧
    ((∀ v ∈ ts.map normTranscript, v.type ≠ vttType) →
      (∃ v ∈ ts.map normTranscript, v.type = srtType) → t.type = srtType) ∧
    ((∀ v ∈ ts.map normTranscript, v.type ≠ vttType ∧ v.type ≠ srtType) →
      (∃ v ∈ ts.map normTranscript, v.type = plainType) → t.type = plainType) ∧
    ((∀ v ∈ ts.map normTranscript,
        v.type ≠ vttType ∧ v.type ≠ srtType ∧ v.type ≠ plainType) →
      (ts.map normTranscript).head? = some t) := by
  unfold selectTranscript at h
  cases h1 : (ts.map normTranscript).find? (fun x : TranscriptRef => x.type == vttType) with
  | some v =>
    simp only [h1] at h
    by_cases hu : truthyPrim v.url = true
    · simp only [hu, if_true, Option.some.injEq] at h
      subst h
      have hveq : v.type = vttType := by
        have := List.find?_some h1
        simpa using this
      have hmem : v ∈ ts.map normTranscript := List.mem_of_find?_eq_some h1
      refine ⟨hmem, hu, fun _ => hveq, ?_, ?_, ?_⟩
      · intro hall _
        exact absurd hveq (hall v hmem)
      · intro hall _
        exact absurd hveq (hall v hmem).1
      · intro hall
        exact absurd hveq (hall v hmem).1
    · simp [hu] at h
  | none =>
    have hnov : ∀ x ∈ ts.map normTranscript, x.type ≠ vttType := by
      rw [List.find?_eq_none] at h1
      intro x hx
      have := h1 x hx
      simpa using this
    simp only [h1] at h
    cases h2 : (ts.map normTranscript).find? (fun x : TranscriptRef => x.type == srtType) with
    | some v =>
      simp only [h2] at h
      by_cases hu : truthyPrim v.url = true
      · simp only [hu, if_true, Option.some.injEq] at h
        subst h
        have hveq : v.type = srtType := by
          have := List.find?_some h2
          simpa using this
        have hmem : v ∈ ts.map normTranscript := List.mem_of_find?_eq_some h2
        refine ⟨hmem, hu, ?_, fun _ _ => hveq, ?_, ?_⟩
        · intro hex
          obtain ⟨w, hw, hweq⟩ := hex
          exact absurd hweq (hnov w hw)
        · intro hall _
          exact absurd hveq (hall v hmem).2
        · intro hall
          exact absurd hveq (hall v hmem).2.1
      · simp [hu] at h
    | none =>
      have hnos : ∀ x ∈ ts.map normTranscript, x.type ≠ srtType := by
        rw [List.find?_eq_none] at h2
        intro x hx
        have := h2 x hx
        simpa using this
      simp only [h2] at h
      cases h3 : (ts.map normTranscript).find? (fun x : TranscriptRef => x.type == plainType) with
      | some v =>
        simp only [h3] at h
        by_cases hu : truthyPrim v.url = true
        · simp only [hu, if_true, Option.some.injEq] at h
          subst h
          have hveq : v.type = plainType := by
            have := List.find?_some h3
            simpa using this
          have hmem : v ∈ ts.map normTranscript := List.mem_of_find?_eq_some h3
          refine ⟨hmem, hu, ?_, ?_, fun _ _ => hveq, ?_⟩
          · intro hex
            obtain ⟨w, hw, hweq⟩ := hex
            exact absurd hweq (hnov w hw)
          · intro _ hex
            obtain ⟨w, hw, hweq⟩ := hex
            exact absurd hweq (hnos w hw)
          · intro hall
            exact absurd hveq (hall v hmem).2.2
        · simp [hu] at h
      | none =>
        have hnop : ∀ x ∈ ts.map normTranscript, x.type ≠ plainType := by
          rw [List.find?_eq_none] at h3
          intro x hx
          have := h3 x hx
          simpa using this
        simp only [h3] at h
        cases h4 : (ts.map normTranscript).head? with
        | none => rw [h4] at h; simp at h
        | some p =>
          rw [h4] at h
          by_cases hu : truthyPrim p.url = true
          · simp only [hu, if_true, Option.some.injEq] at h
            subst h
            have hmem : p ∈ ts.map normTranscript := by
              cases hl : ts.map normTranscript with
              | nil => rw [hl] at h4; simp at h4
              | cons x xs =>
                rw [hl] at h4
                simp only [List.head?_cons, Option.some.injEq] at h4
                subst h4
                exact List.mem_cons_self x xs
            refine ⟨hmem, hu, ?_, ?_, ?_, fun _ => rfl⟩
            · intro hex
              obtain ⟨w, hw, hweq⟩ := hex
              exact absurd hweq (hnov w hw)
            · intro _ hex
              obtain ⟨w, hw, hweq⟩ := hex
              exact absurd hweq (hnos w hw)
            · intro _ hex
              obtain ⟨w, hw, hweq⟩ := hex
              exact absurd hweq (hnop w hw)
          · simp [hu] at h

/-- **C6 (amended).** When a channel or item carries `podcast:transcript`
tags, at most one transcript reference is retained (the result is a single
optional slot); the retained one is chosen by type preference
`text/vtt` > `application/x-subrip` > `text/plain` > first in document
order, and only kept when its URL is non-empty — when the preferred
transcript has a falsy URL, nothing is retained even if other usable
transcripts exist (see the counterexample). -/
theorem c6_transcript_preference (ts : List RawTranscript) (t : TranscriptRef)
    (h : extractTranscript (.list ts) = some t) :
    t ∈ ts.map normTranscript ∧ truthyPrim t.url = true ∧
    ((∃ v ∈ ts.map normTranscript, v.type = vttType) → t.type = vttType) ∧
    ((∀ v ∈ ts.map normTranscript, v.type ≠ vttType) →
      (∃ v ∈ ts.map normTranscript, v.type = srtType) → t.type = srtType) ∧
    ((∀ v ∈ ts.map normTranscript, v.type ≠ vttType ∧ v.type ≠ srtType) →
      (∃ v ∈ ts.map normTranscript, v.type = plainType) → t.type = plainType) ∧
    ((∀ v ∈ ts.map normTranscript,
        v.type ≠ vttType ∧ v.type ≠ srtType ∧ v.type ≠ plainType) →
      (ts.map normTranscript).head? = some t) :=
  selectTranscript_spec ts t h

/-- Witness for `c6_transcript_preference`: a VTT transcript wins over an
earlier plain-text one. -/
theorem c6_transcript_preference_witness :
    normTranscript c6VttWithUrl ∈ c6ListW.map normTranscript ∧
    truthyPrim (normTranscript c6VttWithUrl).url = true ∧
    (normTranscript c6VttWithUrl).type = vttType := by
  have h := c6_transcript_preference c6ListW (normTranscript c6VttWithUrl)
    (by decide)
  exact ⟨h.1, h.2.1,
    h.2.2.1 ⟨normTranscript c6VttWithUrl, by decide, by decide⟩⟩

/-! ### Claim C10: pubDate falls back to the parse-time wall clock -/

/-- Whether an item yields an episode does not depend on the wall clock. -/
theorem buildEpisode_isSome_clock_free (now₁ now₂ : Str) (it : Item) :
    (buildEpisode now₁ it).isSome = (buildEpisode now₂ it).isSome := by
  unfold buildEpisode
  cases henc : it.enclosure with
  | none => simp only [henc]
  | some enc =>
    simp only [henc]
    cases hau : jsOr enc.urlAttr enc.urlField with
    | none => simp only [hau]
    | some u =>
      simp only [hau]
      by_cases ht : truthyPrim u = true <;> simp [ht]

/-- Two `filterMap`s that keep the same elements and produce equal lists
agree pointwise on every kept element. -/
theorem filterMap_eq_pointwise {α β : Type} (f g : α → Option β) :
    ∀ l : List α, (∀ a ∈ l, (f a).isSome = (g a).isSome) →
      l.filterMap f = l.filterMap g → ∀ a ∈ l, f a = g a := by
  intro l
  induction l with
  | nil =>
    intro _ _ a ha
    simp at ha
  | cons x xs ih =>
    intro hsome heq a ha
    have hx := hsome x (List.mem_cons_self x xs)
    cases hfx : f x with
    | none =>
      have hgx : g x = none := by
        cases hgx : g x with
        | none => rfl
        | some b => rw [hfx, hgx] at hx; simp at hx
      rw [List.filterMap_cons_none hfx, List.filterMap_cons_none hgx] at heq
      rcases List.mem_cons.mp ha with rfl | ha2
      · rw [hfx, hgx]
      · exact ih (fun b hb => hsome b (List.mem_cons_of_mem x hb)) heq a ha2
    | some b =>
      obtain ⟨c, hgx⟩ : ∃ c, g x = some c := by
        cases hgx : g x with
        | none => rw [hfx, hgx] at hx; simp at hx
        | some c => exact ⟨c, rfl⟩
      rw [List.filterMap_cons_some hfx, List.filterMap_cons_some hgx] at heq
      simp only [List.cons.injEq] at heq
      rcases List.mem_cons.mp ha with rfl | ha2
      · rw [hfx, hgx, heq.1]
      · exact ih (fun d hd => hsome d (List.mem_cons_of_mem x hd)) heq.2 a ha2

/-- **C10.** An item with a usable enclosure but no truthy `<pubDate>` gets
the wall-clock reading as its episode `pubDate`, so parsing the same
document at two different instants yields different feeds: the parse is
not deterministic in its input document alone. -/
theorem c10_pubDate_wall_clock (url : Str) (ch : ChannelM) (now₁ now₂ : Str)
    (hne : now₁ ≠ now₂) (it : Item) (hmem : some it ∈ itemsOf ch.item)
    (enc : Enclosure) (henc : it.enclosure = some enc)
    (u : JPrim) (hu : jsOr enc.urlAttr enc.urlField = some u)
    (ht : truthyPrim u = true) (hpd : truthyOpt it.pubDate = false) :
    parsePodcastFeed url now₁ (some ch) ≠ parsePodcastFeed url now₂ (some ch) := by
  intro heq
  simp only [parsePodcastFeed, Except.ok.injEq, PodcastFeedM.mk.injEq] at heq
  have hpt := filterMap_eq_pointwise
    (fun oi => oi.bind (buildEpisode now₁)) (fun oi => oi.bind (buildEpisode now₂))
    (itemsOf ch.item)
    (fun oi _ => by
      cases oi with
      | none => rfl
      | some j =>
        simpa using buildEpisode_isSome_clock_free now₁ now₂ j)
    heq.2 (some it) hmem
  simp only [Option.some_bind] at hpt
  unfold buildEpisode at hpt
  simp only [henc, hu, ht, if_true, Option.some.injEq, EpisodeM.mk.injEq] at hpt
  obtain ⟨-, -, -, -, -, -, hp, -, -, -⟩ := hpt
  unfold jsOrD at hp
  rw [hpd] at hp
  simp only [Bool.false_eq_true, if_false, JPrim.jstr.injEq] at hp
  exact hne hp

/-- Witness for `c10_pubDate_wall_clock`: the sample channel parsed at two
different instants yields different results. -/
theorem c10_pubDate_wall_clock_witness :
    parsePodcastFeed sampleFeedUrl ("A".toList) (some sampleChannel) ≠
      parsePodcastFeed sampleFeedUrl ("B".toList) (some sampleChannel) :=
  c10_pubDate_wall_clock sampleFeedUrl sampleChannel ("A".toList) ("B".toList)
    (by decide) sampleItem (by decide) sampleEnclosure (by decide)
    (JPrim.jstr ("https://example.com/ep1.mp3".toList)) (by decide) (by decide)
    (by decide)

/-! ### PersonAggregator (src/unnamed/part_001 lines 67-113)

The people endpoint folds over the cached feed's episodes, accumulating a
`Map` from person slug to `Person`; JS `Map` preserves insertion order,
modelled here as an association list updated in place.  Optional string
fields are `Option Str`, with JS truthiness (`undefined` and `''` falsy)
given by `truthyStr`. -/

/-- One raw `podcast:person` occurrence stored on an episode. -/
structure PersonTag where
  name : Str
  role : Option Str
  group : Option Str
  img : Option Str
  href : Option Str
  deriving DecidableEq

/-- The accumulated person record. -/
structure Person where
  slug : Str
  name : Str
  role : Option Str
  group : Option Str
  img : Option Str
  href : Option Str
  episodeSlugs : List Str
  deriving DecidableEq

instance : Inhabited PersonTag :=
  ⟨{ name := [], role := none, group := none, img := none, href := none }⟩

instance : Inhabited Person :=
  ⟨{ slug := [], name := [], role := none, group := none, img := none
     href := none, episodeSlugs := [] }⟩

/-- JS truthiness for an optional string field. -/
def truthyStr : Option Str → Bool
  | none => false
  | some s => !s.isEmpty

/-- What the aggregator reads from one episode: its slug and its
`podcast2?.persons ?? []`. -/
structure EpPersons where
  slug : Str
  persons : List PersonTag
  deriving DecidableEq

/-- Lines 93-101: first sighting creates the record from this occurrence. -/
def mkPerson (s : Str) (p : PersonTag) (epSlug : Str) : Person :=
  { slug := s, name := p.name, role := p.role, group := p.group
    img := p.img, href := p.href, episodeSlugs := [epSlug] }

/-- Lines 84-91: later sightings union the episode slug and fill any
still-falsy optional field from the new occurrence (first non-empty value
wins). -/
def mergePerson (q : Person) (p : PersonTag) (epSlug : Str) : Person :=
  { q with
    episodeSlugs :=
      if epSlug ∈ q.episodeSlugs then q.episodeSlugs
      else q.episodeSlugs ++ [epSlug]
    img := if !truthyStr q.img && truthyStr p.img then p.img else q.img
    href := if !truthyStr q.href && truthyStr p.href then p.href else q.href
    role := if !truthyStr q.role && truthyStr p.role then p.role else q.role
    group := if !truthyStr q.group && truthyStr p.group then p.group else q.group }

/-- Update the association list at slug `s`: merge into the existing entry
or append a fresh record at the end (JS `Map` insertion order). -/
def updatePersons (epSlug : Str) (p : PersonTag) (s : Str) :
    List Person → List Person
  | [] => [mkPerson s p epSlug]
  | q :: rest =>
    if q.slug = s then mergePerson q p epSlug :: rest
    else q :: updatePersons epSlug p s rest

/-- Lines 78-103 for one occurrence: `if (!p.name) continue`, then update
the map at `personSlug(p.name)`. -/
def addOcc (m : List Person) (epSlug : Str) (p : PersonTag) : List Person :=
  if p.name.isEmpty then m else updatePersons epSlug p (personSlug p.name) m

/-- One episode's inner loop. -/
def aggregateStep (m : List Person) (ep : EpPersons) : List Person :=
  ep.persons.foldl (fun acc p => addOcc acc ep.slug p) m

/-- Lines 72-104: the whole fold over the episode list. -/
def aggregateMap (eps : List EpPersons) : List Person :=
  eps.foldl aggregateStep []

/-- Lexicographic order on strings; stands in for `localeCompare` (the
concrete inputs below never reach the comparator). -/
def lexLt : Str → Str → Bool
  | [], [] => false
  | [], _ :: _ => true
  | _ :: _, [] => false
  | a :: as, b :: bs => if a = b then lexLt as bs else decide (a < b)

/-- Lines 106-109: descending episode count, ties by name. -/
def personBefore (a b : Person) : Bool :=
  if b.episodeSlugs.length = a.episodeSlugs.length then lexLt a.name b.name
  else decide (b.episodeSlugs.length < a.episodeSlugs.length)

def insertSorted (a : Person) : List Person → List Person
  | [] => [a]
  | b :: rest => if personBefore a b then a :: b :: rest else b :: insertSorted a rest

def sortPeople (l : List Person) : List Person := l.foldr insertSorted []

/-- The endpoint's result: the accumulated map's values, sorted. -/
def aggregatePeople (eps : List EpPersons) : List Person :=
  sortPeople (aggregateMap eps)

def c4Tag1 : PersonTag :=
  { name := "Jane".toList, role := some ("host".toList)
    group := none, img := none, href := none }

def c4Tag2 : PersonTag :=
  { name := "Jane".toList, role := some ("guest".toList)
    group := none, img := none, href := none }

def c4Ep1 : EpPersons := { slug := "ep-1".toList, persons := [c4Tag1] }

def c4Ep2 : EpPersons := { slug := "ep-2".toList, persons := [c4Tag2] }

/-- **C4 (counterexample).** Processing the same two episodes in the two
orders yields different final `Person[]`: the same person ends up with
role "host" in one order and "guest" in the other, because
first-non-empty-value-wins is order sensitive.  The claim's "same final
Person[] ... same filled-in optional fields" fails. -/
theorem c4_order_dependent_counterexample :
    aggregatePeople [c4Ep1, c4Ep2] ≠ aggregatePeople [c4Ep2, c4Ep1] ∧
    (aggregatePeople [c4Ep1, c4Ep2]).map (fun q => q.role) =
      [some ("host".toList)] ∧
    (aggregatePeople [c4Ep2, c4Ep1]).map (fun q => q.role) =
      [some ("guest".toList)] := by
  decide

/-! #### What *is* order independent about the aggregation

Flattening the nested fold into a fold over `(episodeSlug, personTag)`
occurrences, three observations of the final map are characterised by pure
existentials over the input and are therefore permutation invariant: which
slugs are present, which episode slugs each person accumulated, and which
optional fields ended up populated. -/

def addOccP (m : List Person) (o : Str × PersonTag) : List Person :=
  addOcc m o.1 o.2

def occs (eps : List EpPersons) : List (Str × PersonTag) :=
  eps.flatMap (fun ep => ep.persons.map (fun p => (ep.slug, p)))

def findBySlug (m : List Person) (s : Str) : Option Person :=
  m.find? (fun q => q.slug == s)

/-- Whether the accumulated entry at `s` has a truthy value in field `fld`. -/
def fieldTruthy (fld : Person → Option Str) (m : List Person) (s : Str) : Bool :=
  match findBySlug m s with
  | none => false
  | some q => truthyStr (fld q)

/-- Whether episode slug `e` is recorded on the entry at `s`. -/
def epMem (m : List Person) (s e : Str) : Bool :=
  match findBySlug m s with
  | none => false
  | some q => decide (e ∈ q.episodeSlugs)

theorem mergePerson_slug (q : Person) (p : PersonTag) (es : Str) :
    (mergePerson q p es).slug = q.slug := rfl

theorem foldl_aggregateStep_eq :
    ∀ (eps : List EpPersons) (m : List Person),
      eps.foldl aggregateStep m = (occs eps).foldl addOccP m := by
  intro eps
  induction eps with
  | nil => intro m; rfl
  | cons ep rest ih =>
    intro m
    have hstep : aggregateStep m ep =
        (ep.persons.map (fun p => (ep.slug, p))).foldl addOccP m := by
      rw [List.foldl_map]
      rfl
    calc (ep :: rest).foldl aggregateStep m
        = rest.foldl aggregateStep (aggregateStep m ep) := rfl
      _ = (occs rest).foldl addOccP (aggregateStep m ep) := ih _
      _ = (occs rest).foldl addOccP
            ((ep.persons.map (fun p => (ep.slug, p))).foldl addOccP m) := by
          rw [hstep]
      _ = ((ep.persons.map (fun p => (ep.slug, p))) ++ occs rest).foldl addOccP m :=
          (List.foldl_append ..).symm
      _ = (occs (ep :: rest)).foldl addOccP m := by
          simp [occs, List.flatMap_cons]

theorem aggregateMap_eq_occs (eps : List EpPersons) :
    aggregateMap eps = (occs eps).foldl addOccP [] :=
  foldl_aggregateStep_eq eps []

theorem findBySlug_update_other {s s' : Str} (hne : ¬ s' = s) (es : Str)
    (p : PersonTag) :
    ∀ m : List Person, findBySlug (updatePersons es p s' m) s = findBySlug m s := by
  intro m
  induction m with
  | nil =>
    have h1 : (s' == s) = false := by simp [hne]
    simp [updatePersons, findBySlug, List.find?_cons, mkPerson, h1]
  | cons q rest ih =>
    by_cases hq : q.slug = s'
    · have h1 : (q.slug == s) = false := by simp [hq, hne]
      simp [updatePersons, if_pos hq, findBySlug, List.find?_cons,
        mergePerson_slug, h1]
    · by_cases hqs : (q.slug == s) = true
      · simp [updatePersons, if_neg hq, findBySlug, List.find?_cons, hqs]
      · have h1 : (q.slug == s) = false := by simpa using hqs
        simp only [updatePersons, if_neg hq, findBySlug, List.find?_cons, h1]
        simpa [findBySlug] using ih

theorem findBySlug_update_self (s' es : Str) (p : PersonTag) :
    ∀ m : List Person,
      findBySlug (updatePersons es p s' m) s' =
        some (match findBySlug m s' with
              | none => mkPerson s' p es
              | some q => mergePerson q p es) := by
  intro m
  induction m with
  | nil =>
    simp [updatePersons, findBySlug, List.find?_cons, mkPerson]
  | cons q rest ih =>
    by_cases hq : q.slug = s'
    · have h1 : (q.slug == s') = true := by simp [hq]
      simp [updatePersons, if_pos hq, findBySlug, List.find?_cons,
        mergePerson_slug, h1]
    · have h1 : (q.slug == s') = false := by simp [hq]
      simp only [updatePersons, if_neg hq, findBySlug, List.find?_cons, h1]
      simpa [findBySlug] using ih

theorem addOccP_skip {o : Str × PersonTag} (h : o.2.name.isEmpty = true)
    (m : List Person) : addOccP m o = m := by
  simp [addOccP, addOcc, h]

theorem addOccP_kept {o : Str × PersonTag} (h : o.2.name.isEmpty = false)
    (m : List Person) :
    addOccP m o = updatePersons o.1 o.2 (personSlug o.2.name) m := by
  simp [addOccP, addOcc, h]

theorem presence_foldl :
    ∀ (os : List (Str × PersonTag)) (m : List Person) (s : Str),
      ((findBySlug (os.foldl addOccP m) s).isSome = true ↔
        (findBySlug m s).isSome = true ∨
        ∃ o ∈ os, o.2.name.isEmpty = false ∧ personSlug o.2.name = s) := by
  intro os
  induction os with
  | nil =>
    intro m s
    simp
  | cons o rest ih =>
    intro m s
    rw [List.foldl_cons, ih (addOccP m o) s, List.exists_mem_cons_iff]
    by_cases hname : o.2.name.isEmpty = true
    · rw [addOccP_skip hname]
      have hko : ¬(o.2.name.isEmpty = false ∧ personSlug o.2.name = s) := by
        simp [hname]
      rw [iff_false_intro hko, false_or]
    · have hname' : o.2.name.isEmpty = false := by simpa using hname
      by_cases hs : personSlug o.2.name = s
      · have hsome : (findBySlug (addOccP m o) s).isSome = true := by
          rw [addOccP_kept hname', hs, findBySlug_update_self]
          rfl
        exact iff_of_true (Or.inl hsome) (Or.inr (Or.inl ⟨hname', hs⟩))
      · rw [addOccP_kept hname', findBySlug_update_other hs]
        have hko : ¬(o.2.name.isEmpty = false ∧ personSlug o.2.name = s) := by
          simp [hs]
        rw [iff_false_intro hko, false_or]

theorem epMem_foldl :
    ∀ (os : List (Str × PersonTag)) (m : List Person) (s e : Str),
      (epMem (os.foldl addOccP m) s e = true ↔
        epMem m s e = true ∨
        ∃ o ∈ os, o.2.name.isEmpty = false ∧ personSlug o.2.name = s ∧
          o.1 = e) := by
  intro os
  induction os with
  | nil =>
    intro m s e
    simp
  | cons o rest ih =>
    intro m s e
    rw [List.foldl_cons, ih (addOccP m o) s e, List.exists_mem_cons_iff]
    by_cases hname : o.2.name.isEmpty = true
    · rw [addOccP_skip hname]
      have hko : ¬(o.2.name.isEmpty = false ∧ personSlug o.2.name = s ∧ o.1 = e) := by
        simp [hname]
      rw [iff_false_intro hko, false_or]
    · have hname' : o.2.name.isEmpty = false := by simpa using hname
      by_cases hs : personSlug o.2.name = s
      · have hstep : epMem (addOccP m o) s e = true ↔
            epMem m s e = true ∨ o.1 = e := by
          rw [addOccP_kept hname', hs, epMem, findBySlug_update_self]
          cases hfm : findBySlug m s with
          | none =>
            simp only [epMem, hfm]
            simp only [mkPerson, Bool.false_eq_true, false_or,
              decide_eq_true_eq, List.mem_singleton]
            exact eq_comm
          | some q =>
            simp only [epMem, hfm]
            simp only [mergePerson]
            by_cases he : o.1 ∈ q.episodeSlugs
            · simp only [he, if_true]
              constructor
              · intro h
                exact Or.inl h
              · rintro (h | h)
                · exact h
                · subst h
                  simpa using he
            · simp only [he, if_false]
              simp only [decide_eq_true_eq, List.mem_append, List.mem_singleton]
              constructor
              · rintro (h | h)
                · exact Or.inl h
                · exact Or.inr h.symm
              · rintro (h | h)
                · exact Or.inl h
                · exact Or.inr h.symm
        rw [hstep]
        have heq : (o.2.name.isEmpty = false ∧ personSlug o.2.name = s ∧ o.1 = e) ↔
            o.1 = e := by simp [hname', hs]
        rw [heq]
        exact or_assoc
      · rw [addOccP_kept hname']
        have hunch : epMem (updatePersons o.1 o.2 (personSlug o.2.name) m) s e =
            epMem m s e := by
          unfold epMem
          rw [findBySlug_update_other hs]
        rw [hunch]
        have hko : ¬(o.2.name.isEmpty = false ∧ personSlug o.2.name = s ∧ o.1 = e) := by
          simp [hs]
        rw [iff_false_intro hko, false_or]

theorem fieldTruthy_foldl (fld : Person → Option Str) (tfld : PersonTag → Option Str)
    (hmk : ∀ s p es, fld (mkPerson s p es) = tfld p)
    (hmg : ∀ q p es, fld (mergePerson q p es) =
      if !truthyStr (fld q) && truthyStr (tfld p) then tfld p else fld q) :
    ∀ (os : List (Str × PersonTag)) (m : List Person) (s : Str),
      (fieldTruthy fld (os.foldl addOccP m) s = true ↔
        fieldTruthy fld m s = true ∨
        ∃ o ∈ os, o.2.name.isEmpty = false ∧ personSlug o.2.name = s ∧
          truthyStr (tfld o.2) = true) := by
  intro os
  induction os with
  | nil =>
    intro m s
    simp
  | cons o rest ih =>
    intro m s
    rw [List.foldl_cons, ih (addOccP m o) s, List.exists_mem_cons_iff]
    by_cases hname : o.2.name.isEmpty = true
    · rw [addOccP_skip hname]
      have hko : ¬(o.2.name.isEmpty = false ∧ personSlug o.2.name = s ∧
          truthyStr (tfld o.2) = true) := by simp [hname]
      rw [iff_false_intro hko, false_or]
    · have hname' : o.2.name.isEmpty = false := by simpa using hname
      by_cases hs : personSlug o.2.name = s
      · have hstep : fieldTruthy fld (addOccP m o) s = true ↔
            fieldTruthy fld m s = true ∨ truthyStr (tfld o.2) = true := by
          rw [addOccP_kept hname', hs, fieldTruthy, findBySlug_update_self]
          cases hfm : findBySlug m s with
          | none =>
            simp only [fieldTruthy, hfm, hmk]
            simp
          | some q =>
            simp only [fieldTruthy, hfm, hmg]
            cases hq : truthyStr (fld q) <;> cases hp : truthyStr (tfld o.2) <;>
              simp [hq, hp]
        rw [hstep]
        have heq : (o.2.name.isEmpty = false ∧ personSlug o.2.name = s ∧
            truthyStr (tfld o.2) = true) ↔ truthyStr (tfld o.2) = true := by
          simp [hname', hs]
        rw [heq]
        exact or_assoc
      · rw [addOccP_kept hname']
        have hunch : fieldTruthy fld (updatePersons o.1 o.2 (personSlug o.2.name) m) s =
            fieldTruthy fld m s := by
          unfold fieldTruthy
          rw [findBySlug_update_other hs]
        rw [hunch]
        have hko : ¬(o.2.name.isEmpty = false ∧ personSlug o.2.name = s ∧
            truthyStr (tfld o.2) = true) := by simp [hs]
        rw [iff_false_intro hko, false_or]

theorem occs_exists_iff (eps : List EpPersons) (P : Str → PersonTag → Prop) :
    (∃ o ∈ occs eps, P o.1 o.2) ↔ ∃ ep ∈ eps, ∃ p ∈ ep.persons, P ep.slug p := by
  constructor
  · rintro ⟨o, ho, hP⟩
    obtain ⟨ep, hep, ho2⟩ := List.mem_flatMap.mp ho
    obtain ⟨p, hp, rfl⟩ := List.mem_map.mp ho2
    exact ⟨ep, hep, p, hp, hP⟩
  · rintro ⟨ep, hep, p, hp, hP⟩
    exact ⟨(ep.slug, p),
      List.mem_flatMap.mpr ⟨ep, hep, List.mem_map.mpr ⟨p, hp, rfl⟩⟩, hP⟩

theorem exists_perm_transport {α : Type} {l l' : List α} (h : l.Perm l')
    (Q : α → Prop) : (∃ x ∈ l, Q x) ↔ ∃ x ∈ l', Q x := by
  constructor
  · rintro ⟨x, hx, hq⟩
    exact ⟨x, h.mem_iff.mp hx, hq⟩
  · rintro ⟨x, hx, hq⟩
    exact ⟨x, h.mem_iff.mpr hx, hq⟩

theorem bool_eq_of_iff {b c : Bool} (h : b = true ↔ c = true) : b = c := by
  cases b <;> cases c <;> simp_all

/-- Presence of a slug in the final map depends only on the multiset of
episodes. -/
theorem presence_char (eps : List EpPersons) (s : Str) :
    ((findBySlug (aggregateMap eps) s).isSome = true ↔
      ∃ ep ∈ eps, ∃ p ∈ ep.persons,
        p.name.isEmpty = false ∧ personSlug p.name = s) := by
  rw [aggregateMap_eq_occs, presence_foldl,
    occs_exists_iff eps (fun _ t => t.name.isEmpty = false ∧ personSlug t.name = s)]
  simp [findBySlug]

theorem epMem_char (eps : List EpPersons) (s e : Str) :
    (epMem (aggregateMap eps) s e = true ↔
      ∃ ep ∈ eps, ∃ p ∈ ep.persons,
        p.name.isEmpty = false ∧ personSlug p.name = s ∧ ep.slug = e) := by
  rw [aggregateMap_eq_occs, epMem_foldl,
    occs_exists_iff eps
      (fun es t => t.name.isEmpty = false ∧ personSlug t.name = s ∧ es = e)]
  simp [epMem, findBySlug]

theorem fieldTruthy_char (fld : Person → Option Str) (tfld : PersonTag → Option Str)
    (hmk : ∀ s p es, fld (mkPerson s p es) = tfld p)
    (hmg : ∀ q p es, fld (mergePerson q p es) =
      if !truthyStr (fld q) && truthyStr (tfld p) then tfld p else fld q)
    (eps : List EpPersons) (s : Str) :
    (fieldTruthy fld (aggregateMap eps) s = true ↔
      ∃ ep ∈ eps, ∃ p ∈ ep.persons,
        p.name.isEmpty = false ∧ personSlug p.name = s ∧
          truthyStr (tfld p) = true) := by
  rw [aggregateMap_eq_occs, fieldTruthy_foldl fld tfld hmk hmg,
    occs_exists_iff eps
      (fun _ t => t.name.isEmpty = false ∧ personSlug t.name = s ∧
        truthyStr (tfld t) = true)]
  simp [fieldTruthy, findBySlug]

/-- **C4 (amended).** The aggregation is order independent in what is
observable up to first-wins values: for any permutation of the episode
list, the final map has the same person slugs, the same set of episode
slugs per person, and the same set of *populated* optional
role/group/img/href fields.  (Which concrete value won a populated field —
and the display name — does depend on order; see the counterexample.) -/
theorem c4_aggregation_order_invariants (eps eps' : List EpPersons)
    (hperm : eps.Perm eps') (s : Str) :
    ((findBySlug (aggregateMap eps) s).isSome =
      (findBySlug (aggregateMap eps') s).isSome) ∧
    (∀ e, epMem (aggregateMap eps) s e = epMem (aggregateMap eps') s e) ∧
    (fieldTruthy (fun q => q.role) (aggregateMap eps) s =
      fieldTruthy (fun q => q.role) (aggregateMap eps') s) ∧
    (fieldTruthy (fun q => q.group) (aggregateMap eps) s =
      fieldTruthy (fun q => q.group) (aggregateMap eps') s) ∧
    (fieldTruthy (fun q => q.img) (aggregateMap eps) s =
      fieldTruthy (fun q => q.img) (aggregateMap eps') s) ∧
    (fieldTruthy (fun q => q.href) (aggregateMap eps) s =
      fieldTruthy (fun q => q.href) (aggregateMap eps') s) := by
  refine ⟨?_, ?_, ?_, ?_, ?_, ?_⟩
  · exact bool_eq_of_iff
      ((presence_char eps s).trans
        ((exists_perm_transport hperm _).trans (presence_char eps' s).symm))
  · intro e
    exact bool_eq_of_iff
      ((epMem_char eps s e).trans
        ((exists_perm_transport hperm _).trans (epMem_char eps' s e).symm))
  · exact bool_eq_of_iff
      ((fieldTruthy_char _ (fun p => p.role) (fun _ _ _ => rfl)
          (fun _ _ _ => rfl) eps s).trans
        ((exists_perm_transport hperm _).trans
          (fieldTruthy_char _ (fun p => p.role) (fun _ _ _ => rfl)
            (fun _ _ _ => rfl) eps' s).symm))
  · exact bool_eq_of_iff
      ((fieldTruthy_char _ (fun p => p.group) (fun _ _ _ => rfl)
          (fun _ _ _ => rfl) eps s).trans
        ((exists_perm_transport hperm _).trans
          (fieldTruthy_char _ (fun p => p.group) (fun _ _ _ => rfl)
            (fun _ _ _ => rfl) eps' s).symm))
  · exact bool_eq_of_iff
      ((fieldTruthy_char _ (fun p => p.img) (fun _ _ _ => rfl)
          (fun _ _ _ => rfl) eps s).trans
        ((exists_perm_transport hperm _).trans
          (fieldTruthy_char _ (fun p => p.img) (fun _ _ _ => rfl)
            (fun _ _ _ => rfl) eps' s).symm))
  · exact bool_eq_of_iff
      ((fieldTruthy_char _ (fun p => p.href) (fun _ _ _ => rfl)
          (fun _ _ _ => rfl) eps s).trans
        ((exists_perm_transport hperm _).trans
          (fieldTruthy_char _ (fun p => p.href) (fun _ _ _ => rfl)
            (fun _ _ _ => rfl) eps' s).symm))

/-- Witness for `c4_aggregation_order_invariants` on the two-episode swap. -/
theorem c4_aggregation_order_invariants_witness :
    ((findBySlug (aggregateMap [c4Ep1, c4Ep2]) ("jane".toList)).isSome =
      (findBySlug (aggregateMap [c4Ep2, c4Ep1]) ("jane".toList)).isSome) ∧
    (fieldTruthy (fun q => q.role) (aggregateMap [c4Ep1, c4Ep2]) ("jane".toList) =
      fieldTruthy (fun q => q.role) (aggregateMap [c4Ep2, c4Ep1]) ("jane".toList)) := by
  have h := c4_aggregation_order_invariants [c4Ep1, c4Ep2] [c4Ep2, c4Ep1]
    (List.Perm.swap c4Ep2 c4Ep1 []) ("jane".toList)
  exact ⟨h.1, h.2.2.1⟩

/-! ### FeedCache (claim C2)

`server/utils/feed-cache.ts` is not among the provided sources (only its
callers are), so the cache is modelled from the spec: §4.6's per-key state
machine `Empty → Fetching → Cached → …` with §9's single-flight design
note (key → shared awaitable promise).  Concurrency is embedded as the
interleaving of atomic per-key cache accesses: each arriving `getOrFetch`
caller performs one atomic step against the shared state, and a trace is
the sequence of those steps. -/

/-- Modelled from the spec: the per-URL cache state of §4.6. -/
inductive CacheState where
  | empty
  | fetching
  | cached
  deriving DecidableEq

/-- Atomic events at one cache key: a `getOrFetch` caller arrives, the
in-flight fetch resolves, the entry is invalidated, or the TTL elapses. -/
inductive CacheOp where
  | request
  | complete
  | invalidate
  | expire
  deriving DecidableEq

/-- Modelled from the spec: one atomic step of `getOrFetch`/bookkeeping;
the `Bool` reports whether this step started an upstream fetch.  A request
on `empty` starts the single fetch; a request while `fetching` joins the
same in-flight operation; a request on `cached` is served without I/O. -/
def cacheStep : CacheState → CacheOp → CacheState × Bool
  | .empty, .request => (.fetching, true)
  | .fetching, .request => (.fetching, false)
  | .cached, .request => (.cached, false)
  | .fetching, .complete => (.cached, false)
  | s, .complete => (s, false)
  | .cached, .invalidate => (.empty, false)
  | s, .invalidate => (s, false)
  | .cached, .expire => (.empty, false)
  | s, .expire => (s, false)

/-- Run a trace of cache events, counting upstream fetch starts. -/
def runCache : CacheState → List CacheOp → CacheState × Nat
  | s, [] => (s, 0)
  | s, op :: ops =>
    let r := cacheStep s op
    let r2 := runCache r.1 ops
    (r2.1, (if r.2 then 1 else 0) + r2.2)

/-- A fetch is only ever started by a request that finds the key empty,
and it moves the key to `fetching`: at most one fetch is in flight at any
instant. -/
theorem cacheStep_start_inversion (s s' : CacheState) (op : CacheOp)
    (h : cacheStep s op = (s', true)) :
    s = .empty ∧ op = .request ∧ s' = .fetching := by
  cases s <;> cases op <;> simp_all [cacheStep]

theorem runCache_requests_fetching (n : Nat) :
    runCache .fetching (List.replicate n .request) = (.fetching, 0) := by
  induction n with
  | zero => rfl
  | succ k ih => simp [List.replicate_succ, runCache, cacheStep, ih]

/-- **C2.** Modelled from the spec: while no cache entry exists, any
number `n ≥ 1` of concurrent `getOrFetch` callers for the same URL —
interleaved in any way, which for atomic per-key steps is the sequence of
their arrivals — triggers exactly one upstream fetch; every later arrival
joins the in-flight operation instead of starting a second request. -/
theorem c2_single_flight (n : Nat) (h : 1 ≤ n) :
    (runCache .empty (List.replicate n .request)).2 = 1 := by
  cases n with
  | zero => omega
  | succ k =>
    simp [List.replicate_succ, runCache, cacheStep,
      runCache_requests_fetching k]

/-- Witness for `c2_single_flight` with three concurrent callers. -/
theorem c2_single_flight_witness :
    (runCache .empty (List.replicate 3 .request)).2 = 1 :=
  c2_single_flight 3 (by decide)

end PodTheme
